import Mathlib

/-!
Verification of `get_twig.py`: a script that fetches the latest post of a
news feed, extracts title / section headers / image URLs from its HTML, and
republishes them to a Telegram chat.

Strings are embedded as `List Char`; the HTML document is embedded as the
two views the extractor consumes: the list of `img` elements matched by the
CSS path `body > main > div.post > blockquote > p > img` (in document
order) and the list of `h1`/`h3` heading elements returned by
`soup.find_all(["h1", "h3"])` (in document order).
-/

/-- Python `str.strip` whitespace set: space, tab, newline, carriage
return, vertical tab, form feed. -/
def isPySpace (c : Char) : Bool :=
  c = ' ' || c = '\t' || c = '\n' || c = '\r' || c = Char.ofNat 11 || c = Char.ofNat 12

/-- Python `str.strip`: drop leading and trailing whitespace. -/
def pyStrip (s : List Char) : List Char :=
  ((s.dropWhile isPySpace).reverse.dropWhile isPySpace).reverse

/-- A node inside a heading element: either a direct text node
(`NavigableString`) or a nested element with its own children. -/
inductive Node where
  | text (s : List Char)
  | elem (children : List Node)

/-- `element.text` over a list of nodes: concatenation of all descendant
strings in document order (BeautifulSoup `.text`). -/
def nodesText : List Node → List Char
  | [] => []
  | Node.text s :: ns => s ++ nodesText ns
  | Node.elem cs :: ns => nodesText cs ++ nodesText ns

/-- `find_all(string=True, recursive=False)`: the direct text-node children,
in order, skipping nested elements. -/
def directStrings (ns : List Node) : List (List Char) :=
  ns.filterMap fun n =>
    match n with
    | Node.text s => some s
    | Node.elem _ => none

/-- Heading tag name: `find_all(["h1", "h3"])` only yields these two. -/
inductive HTag where
  | h1
  | h3
deriving DecidableEq

/-- A heading element as the extractor sees it: tag name, optional `id`
attribute, `class` attribute (BeautifulSoup multi-valued: a list of class
tokens, `[]` when absent), and child nodes. -/
structure Heading where
  tag : HTag
  idAttr : Option (List Char)
  classes : List (List Char)
  children : List Node

/-- An `img` element matched by the structural path; only its `src`
attribute is consumed. -/
structure Img where
  src : Option (List Char)

/-- The parsed document, restricted to the two views `extract_post_data`
queries: path-matched `img` elements and all `h1`/`h3` headings, each in
document order. -/
structure Soup where
  imgs : List Img
  headings : List Heading

/-- `header.text` of a heading. -/
def headingText (h : Heading) : List Char :=
  nodesText h.children

/-- Python truthiness of `Optional[str]`: `None` and `""` are falsy. -/
def truthyOpt : Option (List Char) → Bool
  | none => false
  | some s => !s.isEmpty

/-- Python's substring test `needle in hay`. -/
def substrIn (needle : List Char) : List Char → Bool
  | [] => needle.isEmpty
  | c :: cs => needle.isPrefixOf (c :: cs) || substrIn needle cs

/-- `"thats-all-for-this-week" in header.get("id", [])`: when the `id`
attribute is absent, `get` returns `[]` and the membership test is `False`;
when present, the attribute is a string and `in` is a substring test. -/
def markerIn (idAttr : Option (List Char)) : Bool :=
  match idAttr with
  | none => false
  | some s => substrIn ("thats-all-for-this-week".data) s

/-- `[t.strip() for t in header.find_all(string=True, recursive=False) if t.strip()]`. -/
def h3TextParts (h : Heading) : List (List Char) :=
  (directStrings h.children).filterMap fun t =>
    let st := pyStrip t
    if st.isEmpty then none else some st

/-- `text_parts[0] if text_parts else None`. -/
def h3Text (h : Heading) : Option (List Char) :=
  (h3TextParts h).head?

/-- One entry of the `headers` list built by `extract_post_data`:
`{"type": ..., "id": ..., "content": ...}`. -/
structure HeaderEntry where
  htype : HTag
  id : Option (List Char)
  content : List Char
deriving DecidableEq

/-- The body of the `for header in soup.find_all(["h1", "h3"])` loop of
`extract_post_data`, acting on the accumulated `(post_title_text, headers)`
state. -/
def processHeader (acc : List Char × List HeaderEntry) (h : Heading) :
    List Char × List HeaderEntry :=
  match h.tag with
  | HTag.h1 =>
    if "post-title".data ∈ h.classes then
      (pyStrip (headingText h), acc.2)
    else if markerIn h.idAttr then
      acc
    else
      (acc.1, acc.2 ++ [⟨HTag.h1, h.idAttr, pyStrip (headingText h)⟩])
  | HTag.h3 =>
    if truthyOpt h.idAttr && truthyOpt (h3Text h) then
      (acc.1, acc.2 ++ [⟨HTag.h3, h.idAttr, (h3Text h).getD []⟩])
    else
      acc

/-- Does a heading take the `post-title` branch (setting the title)? -/
def setsTitle (h : Heading) : Bool :=
  match h.tag with
  | HTag.h1 => decide ("post-title".data ∈ h.classes)
  | HTag.h3 => false

/-- The header entry a single heading contributes (if any): the loop of
`extract_post_data` appends exactly this. -/
def headerEntry (h : Heading) : Option HeaderEntry :=
  match h.tag with
  | HTag.h1 =>
    if "post-title".data ∈ h.classes then none
    else if markerIn h.idAttr then none
    else some ⟨HTag.h1, h.idAttr, pyStrip (headingText h)⟩
  | HTag.h3 =>
    if truthyOpt h.idAttr && truthyOpt (h3Text h) then
      some ⟨HTag.h3, h.idAttr, (h3Text h).getD []⟩
    else none

/-- Model of `urllib.parse.urljoin` scheme detection (used through
`requests.compat.urljoin`): a reference has a scheme when a `:` occurs in
it before any `/`, `?` or `#`. -/
def hasScheme (url : List Char) : Bool :=
  (url.takeWhile fun c => c ≠ '/' && c ≠ '?' && c ≠ '#').contains ':'

/-- Split `s` at the first occurrence of `sep`, returning the parts before
and after it, or `none` when `sep` does not occur. -/
def splitAtSub (sep : List Char) : List Char → Option (List Char × List Char)
  | [] => if sep.isEmpty then some ([], []) else none
  | c :: cs =>
    if sep.isPrefixOf (c :: cs) then some ([], (c :: cs).drop sep.length)
    else (splitAtSub sep cs).map fun p => (c :: p.1, p.2)

/-- The `scheme:` part of an absolute base URL (`"https://h/p"` gives
`"https:"`). -/
def schemeOf (base : List Char) : List Char :=
  match splitAtSub "://".data base with
  | some (sch, _) => sch ++ [':']
  | none => []

/-- The `scheme://authority` part of an absolute base URL. -/
def schemeAuthority (base : List Char) : List Char :=
  match splitAtSub "://".data base with
  | some (sch, rest) => sch ++ "://".data ++ rest.takeWhile (fun c => c ≠ '/')
  | none => []

/-- The base URL truncated after the last `/` of its path: what a relative
reference without a leading `/` is appended to. -/
def baseDirOf (base : List Char) : List Char :=
  match splitAtSub "://".data base with
  | some (sch, rest) =>
    let auth := rest.takeWhile (fun c => c ≠ '/')
    let path := rest.drop auth.length
    let d := (path.reverse.dropWhile (fun c => c ≠ '/')).reverse
    sch ++ "://".data ++ auth ++ (if d.isEmpty then ['/'] else d)
  | none => (base.reverse.dropWhile (fun c => c ≠ '/')).reverse

/-- Model of `requests.compat.urljoin` (`urllib.parse.urljoin`) for the URL
shapes the script meets: a reference with its own scheme is returned as is;
a network-path reference (`//h/p`) keeps the base scheme; a rooted path
(`/p`) keeps the base scheme and authority; an empty reference yields the
base; any other relative path replaces the last path segment of the base.
(No `../` normalisation: the source site's image paths contain none.) -/
def urljoin (base url : List Char) : List Char :=
  if hasScheme url then url
  else if "//".data.isPrefixOf url then schemeOf base ++ url
  else if "/".data.isPrefixOf url then schemeAuthority base ++ url
  else if url.isEmpty then base
  else baseDirOf base ++ url

/-- A URL is absolute when it carries a `scheme://` prefix somewhere before
its path, i.e. `splitAtSub "://"` succeeds. -/
def isAbsUrl (u : List Char) : Bool :=
  (splitAtSub "://".data u).isSome

/-- `extract_post_data`: given the parsed document and the post URL,
returns `(post_title_text, headers, image_urls)`.  The title defaults to
`"Untitled Post"`; the loop over `find_all(["h1", "h3"])` is the fold of
`processHeader`; the image list comprehension keeps, in order, the
path-matched `img` elements with a truthy `src`, resolved against
`post_url`. -/
def extract_post_data (soup : Soup) (post_url : List Char) :
    List Char × List HeaderEntry × List (List Char) :=
  let image_urls := soup.imgs.filterMap fun img =>
    match img.src with
    | some s => if s.isEmpty then none else some (urljoin post_url s)
    | none => none
  let st := soup.headings.foldl processHeader ("Untitled Post".data, [])
  (st.1, st.2, image_urls)

/-- `special_chars = r'_\*[]()~`>#+-=|{}.!'`: note the raw string holds a
literal backslash between `_` and `*`, so the escaped set has 19
characters, the backslash among them.  (Backtick and braces are written as
code points 96, 123 and 125.) -/
def special_chars : List Char :=
  ['_', '\\', '*', '[', ']', '(', ')', '~', Char.ofNat 96, '>', '#', '+',
   '-', '=', '|', Char.ofNat 123, Char.ofNat 125, '.', '!']

/-- Replacement of one character under
`re.sub('([...])', r'\\\1', text)`: a matched character gains a single
backslash prefix, any other character passes through. -/
def escChar (c : Char) : List Char :=
  if c ∈ special_chars then ['\\', c] else [c]

/-- `escape_markdown_v2`: the pattern is a one-character class, so the
substitution rewrites each character independently, left to right. -/
def escape_markdown_v2 : List Char → List Char
  | [] => []
  | c :: cs => escChar c ++ escape_markdown_v2 cs

/-- Inverse reading of the escape: drop the single backslash in front of
each escaped special character. -/
def unescapeMarkdownV2 : List Char → List Char
  | [] => []
  | '\\' :: c :: rest =>
    if c ∈ special_chars then c :: unescapeMarkdownV2 rest
    else '\\' :: unescapeMarkdownV2 (c :: rest)
  | c :: rest => c :: unescapeMarkdownV2 rest

/-- The reserved set as the specification lists it:
`_ * [ ] ( ) ~ ` > # + - = | { } . !` — 18 characters, no backslash. -/
def specReservedSet : List Char :=
  ['_', '*', '[', ']', '(', ')', '~', Char.ofNat 96, '>', '#', '+', '-',
   '=', '|', Char.ofNat 123, Char.ofNat 125, '.', '!']

/-- `chunks = [text[i:i + 4000] for i in range(0, len(text), 4000)]` of
`send_message_filtering_large_text`: fixed-width slicing into 4000-character
chunks (an empty text yields no chunks, as `range(0, 0, 4000)` is empty). -/
def chunkText (s : List Char) : List (List Char) :=
  if s.isEmpty then []
  else s.take 4000 :: chunkText (s.drop 4000)
termination_by s.length
decreasing_by
  simp only [List.length_drop]
  cases s with
  | nil => simp [List.isEmpty] at *
  | cons c cs => exact Nat.sub_lt (by simp) (by omega)

/-- `MAX_IMAGES_PER_MESSAGE = 10`. -/
def MAX_IMAGES_PER_MESSAGE : Nat := 10

/-- One element of the `media` array sent by `send_telegram_images`.  The
source builds the JSON object `{"type": "photo", "media": url}` and never
adds a `caption` key; the optional key is modelled as an `Option` field
that the builder leaves at `none`. -/
structure MediaItem where
  itype : List Char
  media : List Char
  caption : Option (List Char)
deriving DecidableEq

/-- `media_group = [{"type": "photo", "media": url} for url in
image_urls[:MAX_IMAGES_PER_MESSAGE]]` from `send_telegram_images`. -/
def build_media_group (image_urls : List (List Char)) : List MediaItem :=
  (image_urls.take MAX_IMAGES_PER_MESSAGE).map fun u => ⟨"photo".data, u, none⟩

/-! ## Helper lemmas -/

lemma processHeader_snd (acc : List Char × List HeaderEntry) (h : Heading) :
    (processHeader acc h).2 = acc.2 ++ (headerEntry h).toList := by
  obtain ⟨tag, id, cls, ch⟩ := h
  cases tag <;> simp only [processHeader, headerEntry] <;> (repeat' split) <;> simp_all

lemma processHeader_fst (acc : List Char × List HeaderEntry) (h : Heading)
    (hst : setsTitle h = false) : (processHeader acc h).1 = acc.1 := by
  obtain ⟨tag, id, cls, ch⟩ := h
  cases tag <;> simp only [setsTitle, decide_eq_false_iff_not] at hst <;>
    simp only [processHeader] <;> (repeat' split) <;> simp_all

lemma foldl_processHeader_snd (l : List Heading) (t : List Char) (hs : List HeaderEntry) :
    (l.foldl processHeader (t, hs)).2 = hs ++ l.filterMap headerEntry := by
  induction l generalizing t hs with
  | nil => simp
  | cons h l ih =>
    rw [List.foldl_cons]
    rcases hph : processHeader (t, hs) h with ⟨t2, hs2⟩
    have h2 := processHeader_snd (t, hs) h
    rw [hph] at h2
    simp only at h2
    rw [ih t2 hs2, h2, List.filterMap_cons]
    cases headerEntry h <;> simp

lemma foldl_processHeader_fst (l : List Heading) (t : List Char) (hs : List HeaderEntry)
    (hl : ∀ h ∈ l, setsTitle h = false) : (l.foldl processHeader (t, hs)).1 = t := by
  induction l generalizing t hs with
  | nil => rfl
  | cons h l ih =>
    rw [List.foldl_cons]
    rcases hph : processHeader (t, hs) h with ⟨t2, hs2⟩
    have h1 := processHeader_fst (t, hs) h (hl h (List.mem_cons_self h l))
    rw [hph] at h1
    simp only at h1
    rw [ih t2 hs2 fun x hx => hl x (List.mem_cons_of_mem h hx), h1]

lemma extract_headers_eq (soup : Soup) (url : List Char) :
    (extract_post_data soup url).2.1 = soup.headings.filterMap headerEntry := by
  simp [extract_post_data, foldl_processHeader_snd]

lemma extract_title_eq (soup : Soup) (url : List Char)
    (hl : ∀ h ∈ soup.headings, setsTitle h = false) :
    (extract_post_data soup url).1 = "Untitled Post".data := by
  simp [extract_post_data, foldl_processHeader_fst _ _ _ hl]

lemma escape_markdown_v2_append (s t : List Char) :
    escape_markdown_v2 (s ++ t) = escape_markdown_v2 s ++ escape_markdown_v2 t := by
  induction s with
  | nil => rfl
  | cons c cs ih => simp [escape_markdown_v2, ih]

lemma unescape_cons_of_ne (c : Char) (rest : List Char) (hc : c ≠ '\\') :
    unescapeMarkdownV2 (c :: rest) = c :: unescapeMarkdownV2 rest := by
  rw [unescapeMarkdownV2.eq_def]
  split
  · simp_all
  · simp_all
  · rename_i heq
    rw [List.cons.injEq] at heq
    rw [heq.1, heq.2]

lemma backslash_special : '\\' ∈ special_chars := by decide

lemma unescape_escape (s : List Char) :
    unescapeMarkdownV2 (escape_markdown_v2 s) = s := by
  induction s with
  | nil => rfl
  | cons c cs ih =>
    by_cases hc : c ∈ special_chars
    · simp [escape_markdown_v2, escChar, hc, unescapeMarkdownV2, ih]
    · have hne : c ≠ '\\' := fun h => hc (h ▸ backslash_special)
      simp [escape_markdown_v2, escChar, hc, unescape_cons_of_ne c _ hne, ih]

lemma chunkText_nil : chunkText [] = [] := by
  rw [chunkText]
  rfl

lemma chunkText_cons (s : List Char) (hs : ¬s.isEmpty) :
    chunkText s = s.take 4000 :: chunkText (s.drop 4000) := by
  rw [chunkText]
  simp [hs]

lemma chunkText_eq_nil_iff (s : List Char) : chunkText s = [] ↔ s = [] := by
  constructor
  · intro h
    by_contra hne
    rw [chunkText_cons s (by simp [hne])] at h
    exact List.cons_ne_nil _ _ h
  · intro h
    rw [h, chunkText_nil]

lemma chunkText_flatten (s : List Char) : (chunkText s).flatten = s := by
  induction s using chunkText.induct with
  | case1 s hs =>
    rw [List.isEmpty_iff] at hs
    rw [hs, chunkText_nil]
    rfl
  | case2 s hs ih =>
    rw [chunkText_cons s hs, List.flatten_cons, ih, List.take_append_drop]

lemma chunkText_mem_le (s : List Char) (c : List Char) (hc : c ∈ chunkText s) :
    c.length ≤ 4000 := by
  induction s using chunkText.induct generalizing c with
  | case1 s hs =>
    rw [List.isEmpty_iff] at hs
    rw [hs, chunkText_nil] at hc
    exact absurd hc (List.not_mem_nil c)
  | case2 s hs ih =>
    rw [chunkText_cons s hs] at hc
    rcases List.mem_cons.mp hc with h | h
    · rw [h, List.length_take]
      omega
    · exact ih c h

lemma chunkText_dropLast (s : List Char) (c : List Char)
    (hc : c ∈ (chunkText s).dropLast) : c.length = 4000 := by
  induction s using chunkText.induct generalizing c with
  | case1 s hs =>
    rw [List.isEmpty_iff] at hs
    rw [hs, chunkText_nil] at hc
    exact absurd hc (List.not_mem_nil c)
  | case2 s hs ih =>
    rw [chunkText_cons s hs] at hc
    by_cases hd : s.drop 4000 = []
    · rw [hd, chunkText_nil] at hc
      exact absurd hc (List.not_mem_nil c)
    · have hne : chunkText (s.drop 4000) ≠ [] :=
        fun h => hd ((chunkText_eq_nil_iff _).mp h)
      rw [List.dropLast_cons_of_ne_nil hne] at hc
      have hlong : 4000 < s.length := by
        by_contra hle
        exact hd (List.drop_eq_nil_of_le (by omega))
      rcases List.mem_cons.mp hc with h | h
      · rw [h, List.length_take]
        omega
      · exact ih c h

lemma chunkText_two_le (s : List Char) (h : 4000 < s.length) :
    2 ≤ (chunkText s).length := by
  have hs : ¬s.isEmpty := by
    rw [List.isEmpty_iff]
    intro h0
    rw [h0] at h
    simp at h
  rw [chunkText_cons s hs]
  have hd : s.drop 4000 ≠ [] := by
    intro hnil
    have hld := List.length_drop 4000 s
    rw [hnil] at hld
    simp at hld
    omega
  have hne : chunkText (s.drop 4000) ≠ [] := fun hx => hd ((chunkText_eq_nil_iff _).mp hx)
  rcases hcx : chunkText (s.drop 4000) with _ | ⟨a, l⟩
  · exact absurd hcx hne
  · simp

lemma splitAtSub_isSome_of_append (sep pre post : List Char) :
    (splitAtSub sep (pre ++ sep ++ post)).isSome = true := by
  induction pre with
  | nil =>
    cases hsep : sep with
    | nil =>
      cases post with
      | nil => rfl
      | cons c cs =>
        simp only [List.nil_append]
        rw [splitAtSub]
        rw [if_pos (by rw [List.isPrefixOf_iff_prefix]; exact List.nil_prefix)]
        rfl
    | cons c cs =>
      simp only [List.nil_append, List.cons_append]
      rw [splitAtSub]
      rw [if_pos (by
        rw [List.isPrefixOf_iff_prefix, ← List.cons_append]
        exact List.prefix_append _ _)]
      rfl
  | cons c pre ih =>
    simp only [List.cons_append]
    rw [splitAtSub]
    split
    · rfl
    · cases hsp : splitAtSub sep (pre ++ sep ++ post) with
      | none => rw [hsp] at ih; exact absurd ih (by simp)
      | some p => simp

lemma isAbsUrl_append_of_mid (pre post : List Char) :
    isAbsUrl (pre ++ "://".data ++ post) = true := by
  rw [isAbsUrl]
  exact splitAtSub_isSome_of_append _ _ _

lemma isAbsUrl_append_right (pre post s : List Char) :
    isAbsUrl (pre ++ "://".data ++ post ++ s) = true := by
  have h : pre ++ "://".data ++ post ++ s = pre ++ "://".data ++ (post ++ s) := by
    simp [List.append_assoc]
  rw [h]
  exact isAbsUrl_append_of_mid _ _

lemma schemeOf_shape (base sch rest : List Char)
    (hsplit : splitAtSub "://".data base = some (sch, rest)) :
    schemeOf base = sch ++ [':'] := by
  unfold schemeOf
  rw [hsplit]

lemma schemeAuthority_shape (base sch rest : List Char)
    (hsplit : splitAtSub "://".data base = some (sch, rest)) :
    ∃ post, schemeAuthority base = sch ++ "://".data ++ post := by
  unfold schemeAuthority
  rw [hsplit]
  exact ⟨_, rfl⟩

lemma exists_post_assoc (a b c d : List Char) : ∃ post, a ++ b ++ c ++ d = a ++ b ++ post :=
  ⟨c ++ d, List.append_assoc (a ++ b) c d⟩

lemma baseDirOf_shape (base sch rest : List Char)
    (hsplit : splitAtSub "://".data base = some (sch, rest)) :
    ∃ post, baseDirOf base = sch ++ "://".data ++ post := by
  unfold baseDirOf
  rw [hsplit]
  exact exists_post_assoc _ _ _ _

lemma urljoin_abs (base s : List Char) (hb : isAbsUrl base = true)
    (hs : hasScheme s = false) : isAbsUrl (urljoin base s) = true := by
  obtain ⟨⟨sch, rest⟩, hsplit⟩ := Option.isSome_iff_exists.mp hb
  rw [urljoin, if_neg (by rw [hs]; exact Bool.false_ne_true)]
  by_cases h2 : ("//".data).isPrefixOf s
  · rw [if_pos h2]
    obtain ⟨t, ht⟩ := List.isPrefixOf_iff_prefix.mp h2
    have he : schemeOf base ++ s = sch ++ "://".data ++ t := by
      rw [← ht, schemeOf_shape base sch rest hsplit]
      simp [List.append_assoc]
    rw [he]
    exact isAbsUrl_append_of_mid _ _
  · rw [if_neg h2]
    by_cases h3 : ("/".data).isPrefixOf s
    · rw [if_pos h3]
      obtain ⟨post, hp⟩ := schemeAuthority_shape base sch rest hsplit
      rw [hp]
      exact isAbsUrl_append_right _ _ _
    · rw [if_neg h3]
      by_cases h4 : s.isEmpty
      · rw [if_pos h4]
        exact hb
      · rw [if_neg h4]
        obtain ⟨post, hp⟩ := baseDirOf_shape base sch rest hsplit
        rw [hp]
        exact isAbsUrl_append_right _ _ _

lemma extract_images_filterMap (soup : Soup) (url : List Char) :
    (extract_post_data soup url).2.2 = soup.imgs.filterMap fun img =>
      match img.src with
      | some s => if s.isEmpty then none else some (urljoin url s)
      | none => none := rfl

lemma extract_images_eq (soup : Soup) (url : List Char) :
    (extract_post_data soup url).2.2 =
      (soup.imgs.filter fun i => truthyOpt i.src).map fun i =>
        urljoin url (i.src.getD []) := by
  rw [extract_images_filterMap]
  induction soup.imgs with
  | nil => rfl
  | cons i l ih =>
    rcases i with ⟨src⟩
    cases src with
    | none => simpa [List.filterMap_cons, List.filter_cons, truthyOpt] using ih
    | some s =>
      by_cases hse : s = []
      · subst hse
        simpa [List.filterMap_cons, List.filter_cons, truthyOpt] using ih
      · simpa [List.filterMap_cons, List.filter_cons, truthyOpt, hse] using ih

lemma headerEntry_h1_marker (hd : Heading) (ht : hd.tag = HTag.h1)
    (hm : markerIn hd.idAttr = true) : headerEntry hd = none := by
  rcases hd with ⟨tag, id, cls, ch⟩
  obtain rfl : tag = HTag.h1 := ht
  have hm2 : markerIn id = true := hm
  simp only [headerEntry]
  split <;> simp [hm2]

lemma headerEntry_h3_noText (hd : Heading) (ht : hd.tag = HTag.h3)
    (htex : h3Text hd = none) : headerEntry hd = none := by
  rcases hd with ⟨tag, id, cls, ch⟩
  obtain rfl : tag = HTag.h3 := ht
  have htex2 : h3Text ⟨HTag.h3, id, cls, ch⟩ = none := htex
  simp [headerEntry, htex2, truthyOpt]

/-! ## Claim theorems -/

/-- Fifteen image URLs, a concrete oversized input for the media batch. -/
def urls15 : List (List Char) :=
  ["u01", "u02", "u03", "u04", "u05", "u06", "u07", "u08", "u09", "u10",
   "u11", "u12", "u13", "u14", "u15"].map String.data

/-- C1, counterexample: on 15 image URLs the media batch does have the
maximum size and preserves order, but its first item carries no caption —
`send_telegram_images` never attaches one — so the claim that only the
first item carries a caption fails. -/
theorem media_caption_claim_false :
    ¬ ((build_media_group urls15).length = MAX_IMAGES_PER_MESSAGE ∧
       (build_media_group urls15).map MediaItem.media = urls15.take MAX_IMAGES_PER_MESSAGE ∧
       ∀ i (hi : i < (build_media_group urls15).length),
         ((build_media_group urls15).get ⟨i, hi⟩).caption.isSome = decide (i = 0)) := by
  decide

/-- C1, amended: for any list of at least 11 image URLs, the media batch
contains exactly `MAX_IMAGES_PER_MESSAGE` items, in the original order,
every item has type `photo`, and no item carries a caption. -/
theorem media_batch_spec (urls : List (List Char)) (h : 11 ≤ urls.length) :
    (build_media_group urls).length = MAX_IMAGES_PER_MESSAGE ∧
    (build_media_group urls).map MediaItem.media = urls.take MAX_IMAGES_PER_MESSAGE ∧
    ∀ it ∈ build_media_group urls, it.itype = "photo".data ∧ it.caption = none := by
  refine ⟨?_, ?_, ?_⟩
  · simp only [build_media_group, List.length_map, List.length_take, MAX_IMAGES_PER_MESSAGE]
    omega
  · rw [build_media_group, List.map_map]
    exact List.map_id (urls.take MAX_IMAGES_PER_MESSAGE)
  · intro it hit
    simp only [build_media_group, List.mem_map] at hit
    obtain ⟨u, hu, rfl⟩ := hit
    exact ⟨rfl, rfl⟩

/-- C1, witness: the amended theorem at the concrete 15-URL input. -/
theorem media_batch_spec_witness :
    11 ≤ urls15.length ∧
    ((build_media_group urls15).length = MAX_IMAGES_PER_MESSAGE ∧
     (build_media_group urls15).map MediaItem.media = urls15.take MAX_IMAGES_PER_MESSAGE ∧
     ∀ it ∈ build_media_group urls15, it.itype = "photo".data ∧ it.caption = none) :=
  ⟨by decide, media_batch_spec urls15 (by decide)⟩

/-- C2, counterexample: the backslash is outside the reserved set the claim
lists, yet `escape_markdown_v2` alters it (the raw Python string
`r'_\*[]()~`>#+-=|{}.!'` contains a literal backslash), so "no character
outside that reserved set is altered" fails at the one-character input
consisting of a backslash. -/
theorem escape_claim_false :
    ¬ (∀ c : Char, c ∉ specReservedSet → escape_markdown_v2 [c] = [c]) :=
  fun h => absurd (h '\\' (by decide)) (by decide)

/-- C2, amended: the escaped set is the claimed reserved set plus the
backslash itself.  Every character of that 19-character set is emitted with
exactly one backslash prefix, every character outside it passes through
unchanged, escaping distributes over concatenation, and stripping one
backslash before each escaped character recovers the input exactly. -/
theorem escape_markdown_v2_spec :
    (∀ c : Char, c ∈ special_chars ↔ (c = '\\' ∨ c ∈ specReservedSet)) ∧
    (∀ c ∈ special_chars, escape_markdown_v2 [c] = ['\\', c]) ∧
    (∀ c : Char, c ∉ special_chars → escape_markdown_v2 [c] = [c]) ∧
    (∀ s t : List Char,
      escape_markdown_v2 (s ++ t) = escape_markdown_v2 s ++ escape_markdown_v2 t) ∧
    (∀ s : List Char, unescapeMarkdownV2 (escape_markdown_v2 s) = s) := by
  refine ⟨?_, ?_, ?_, escape_markdown_v2_append, unescape_escape⟩
  · intro c
    constructor
    · intro h
      simp only [special_chars, List.mem_cons, List.not_mem_nil, or_false] at h
      simp only [specReservedSet, List.mem_cons, List.not_mem_nil, or_false]
      tauto
    · intro h
      simp only [specReservedSet, List.mem_cons, List.not_mem_nil, or_false] at h
      simp only [special_chars, List.mem_cons, List.not_mem_nil, or_false]
      tauto
  · intro c hc
    simp [escape_markdown_v2, escChar, hc]
  · intro c hc
    simp [escape_markdown_v2, escChar, hc]

/-- C2, witness: a reserved character gains one backslash, an unreserved
one is untouched. -/
theorem escape_markdown_v2_spec_witness :
    escape_markdown_v2 ['.'] = ['\\', '.'] ∧ escape_markdown_v2 ['a'] = ['a'] :=
  ⟨escape_markdown_v2_spec.2.1 '.' (by decide), escape_markdown_v2_spec.2.2.1 'a' (by decide)⟩

/-- C3: for text longer than 4000 characters, the chunks concatenate back
to the original text (so they are ordered, contiguous and non-overlapping),
there are at least two of them, every chunk except the last has length
exactly 4000, and every chunk has length at most 4000. -/
theorem chunk_split_spec (s : List Char) (h : 4000 < s.length) :
    (chunkText s).flatten = s ∧
    2 ≤ (chunkText s).length ∧
    (∀ c ∈ (chunkText s).dropLast, c.length = 4000) ∧
    (∀ c ∈ chunkText s, c.length ≤ 4000) :=
  ⟨chunkText_flatten s, chunkText_two_le s h,
   fun c hc => chunkText_dropLast s c hc, fun c hc => chunkText_mem_le s c hc⟩

/-- C3, witness: the chunking theorem at a concrete 4001-character text. -/
theorem chunk_split_spec_witness :
    4000 < (List.replicate 4001 'a').length ∧
    ((chunkText (List.replicate 4001 'a')).flatten = List.replicate 4001 'a' ∧
     2 ≤ (chunkText (List.replicate 4001 'a')).length ∧
     (∀ c ∈ (chunkText (List.replicate 4001 'a')).dropLast, c.length = 4000) ∧
     (∀ c ∈ chunkText (List.replicate 4001 'a'), c.length ≤ 4000)) :=
  ⟨by rw [List.length_replicate]; norm_num,
   chunk_split_spec _ (by rw [List.length_replicate]; norm_num)⟩

/-- A concrete post URL used by the concrete instances below. -/
def postUrl0 : List Char := "https://h/p".data

/-- C4: for any document with no `h1` carrying the `post-title` class, the
extractor returns (it is total by construction, hence never raises) and the
returned title is the placeholder `"Untitled Post"`. -/
theorem extract_title_default (soup : Soup) (url : List Char)
    (h : ∀ hd ∈ soup.headings, setsTitle hd = false) :
    (extract_post_data soup url).1 = "Untitled Post".data :=
  extract_title_eq soup url h

/-- A document whose only heading is an `h3`, so no title marker exists. -/
def soupNoTitle : Soup := ⟨[], [⟨HTag.h3, none, [], [Node.text "x".data]⟩]⟩

/-- C4, witness: the default-title theorem at a concrete marker-less
document. -/
theorem extract_title_default_witness :
    (∀ hd ∈ soupNoTitle.headings, setsTitle hd = false) ∧
    (extract_post_data soupNoTitle postUrl0).1 = "Untitled Post".data :=
  ⟨by decide, extract_title_default soupNoTitle postUrl0 (by decide)⟩

/-- A document whose only heading is an `h1` with no class and no `id`. -/
def soupH1NoId : Soup := ⟨[], [⟨HTag.h1, none, [], [Node.text "Hello".data]⟩]⟩

/-- C5, counterexample: an `h1` without `post-title` class, without the
closing marker, and without any `id` attribute is appended to the headers
list with `id = None`, so not every header record has a non-empty anchor
id. -/
theorem headers_nonempty_id_claim_false :
    ¬ (∀ e ∈ (extract_post_data soupH1NoId postUrl0).2.1, truthyOpt e.id = true) := by
  decide

/-- C5, amended: every `h3`-derived entry of the headers list has a
non-empty anchor id (the guard `if h3_id and h3_text` enforces it), but
`h1`-derived entries may carry a missing or empty id. -/
theorem h3_headers_id_truthy (soup : Soup) (url : List Char) (e : HeaderEntry)
    (he : e ∈ (extract_post_data soup url).2.1) (ht : e.htype = HTag.h3) :
    truthyOpt e.id = true := by
  rw [extract_headers_eq] at he
  obtain ⟨hd, hmem, hent⟩ := List.mem_filterMap.mp he
  rcases hd with ⟨tag, id, cls, ch⟩
  cases tag with
  | h1 =>
    simp only [headerEntry] at hent
    split at hent
    · exact absurd hent (by simp)
    · split at hent
      · exact absurd hent (by simp)
      · rw [Option.some.injEq] at hent
        rw [← hent] at ht
        exact absurd ht (by simp)
  | h3 =>
    simp only [headerEntry] at hent
    split at hent
    · rename_i hcond
      rw [Bool.and_eq_true] at hcond
      rw [Option.some.injEq] at hent
      rw [← hent]
      exact hcond.1
    · exact absurd hent (by simp)

/-- A document with one well-formed `h3` heading. -/
def soupH3Good : Soup := ⟨[], [⟨HTag.h3, some "sec".data, [], [Node.text "Body".data]⟩]⟩

/-- C5, witness: the amended theorem at a concrete document with one
well-formed `h3`. -/
theorem h3_headers_id_truthy_witness :
    truthyOpt (HeaderEntry.mk HTag.h3 (some "sec".data) "Body".data).id = true :=
  h3_headers_id_truthy soupH3Good postUrl0 _ (by decide) (by decide)

/-- A document whose only heading is an `h1` with the `post-title` class
and a marker-free id. -/
def soupTitleOnly : Soup :=
  ⟨[], [⟨HTag.h1, some "intro".data, ["post-title".data], [Node.text "T".data]⟩]⟩

/-- C6, counterexample: an `h1` whose id does not carry the closing marker
but which carries the `post-title` class becomes the title and is *not*
included in the headers list, so the claim as stated fails. -/
theorem h1_inclusion_claim_false :
    markerIn (some "intro".data) = false ∧
    (extract_post_data soupTitleOnly postUrl0).2.1 = [] := by
  decide

/-- C6, amended: every `h1` heading without the `post-title` class whose id
does not contain the closing marker is included in the headers list with
its own id as anchor and its stripped text as content. -/
theorem h1_plain_included (soup : Soup) (url : List Char) (hd : Heading)
    (hmem : hd ∈ soup.headings) (ht : hd.tag = HTag.h1)
    (hcl : "post-title".data ∉ hd.classes) (hm : markerIn hd.idAttr = false) :
    (HeaderEntry.mk HTag.h1 hd.idAttr (pyStrip (headingText hd))) ∈
      (extract_post_data soup url).2.1 := by
  rw [extract_headers_eq]
  apply List.mem_filterMap.mpr
  refine ⟨hd, hmem, ?_⟩
  rcases hd with ⟨tag, id, cls, ch⟩
  obtain rfl : tag = HTag.h1 := ht
  have hcl2 : "post-title".data ∉ cls := hcl
  have hm2 : markerIn id = false := hm
  simp only [headerEntry]
  rw [if_neg hcl2, if_neg (by rw [hm2]; exact Bool.false_ne_true)]

/-- A document with one plain `h1` heading. -/
def soupH1Plain : Soup := ⟨[], [⟨HTag.h1, some "sec".data, [], [Node.text "Sec".data]⟩]⟩

/-- C6, witness: the amended theorem at a concrete plain `h1`. -/
theorem h1_plain_included_witness :
    (HeaderEntry.mk HTag.h1 (some "sec".data) "Sec".data) ∈
      (extract_post_data soupH1Plain postUrl0).2.1 := by
  have h := h1_plain_included soupH1Plain postUrl0
    ⟨HTag.h1, some "sec".data, [], [Node.text "Sec".data]⟩
    (List.mem_singleton.mpr rfl) rfl (by decide) (by decide)
  have hid : (Heading.mk HTag.h1 (some "sec".data) [] [Node.text "Sec".data]).idAttr
      = some "sec".data := rfl
  have he : pyStrip (headingText
      (Heading.mk HTag.h1 (some "sec".data) [] [Node.text "Sec".data])) = "Sec".data := by
    simp only [headingText]
    simp only [nodesText]
    decide
  rw [hid, he] at h
  exact h

/-- C7: a first-level heading whose id equals the closing marker
`thats-all-for-this-week` contributes nothing to the headers list: the
extraction of a document containing it (at any position) yields the same
headers list as the document without it, whatever its classes or text. -/
theorem h1_marker_excluded (imgs : List Img) (pre post : List Heading)
    (url : List Char) (hd : Heading) (ht : hd.tag = HTag.h1)
    (hid : hd.idAttr = some ("thats-all-for-this-week".data)) :
    (extract_post_data ⟨imgs, pre ++ hd :: post⟩ url).2.1 =
      (extract_post_data ⟨imgs, pre ++ post⟩ url).2.1 := by
  have hm : markerIn hd.idAttr = true := by
    rw [hid]
    decide
  rw [extract_headers_eq, extract_headers_eq]
  simp only [List.filterMap_append, List.filterMap_cons,
    headerEntry_h1_marker hd ht hm]

/-- C7, witness: the exclusion theorem at a concrete well-formed marker
heading (it has an id and non-empty text). -/
theorem h1_marker_excluded_witness :
    (extract_post_data
        ⟨[], [⟨HTag.h1, some ("thats-all-for-this-week".data), [],
               [Node.text "bye".data]⟩]⟩ postUrl0).2.1 =
      (extract_post_data (Soup.mk [] []) postUrl0).2.1 :=
  h1_marker_excluded [] [] []
    postUrl0
    ⟨HTag.h1, some ("thats-all-for-this-week".data), [], [Node.text "bye".data]⟩
    rfl rfl

/-- C8: a third-level heading with a truthy (present, non-empty) id whose
visible text is empty or absent — no direct text child survives
stripping, so `text_parts` is empty — contributes nothing to the headers
list: extraction with it yields the same headers list as without it. -/
theorem h3_empty_text_excluded (imgs : List Img) (pre post : List Heading)
    (url : List Char) (hd : Heading) (ht : hd.tag = HTag.h3)
    (hidt : truthyOpt hd.idAttr = true) (htex : h3Text hd = none) :
    (extract_post_data ⟨imgs, pre ++ hd :: post⟩ url).2.1 =
      (extract_post_data ⟨imgs, pre ++ post⟩ url).2.1 := by
  rw [extract_headers_eq, extract_headers_eq]
  simp only [List.filterMap_append, List.filterMap_cons,
    headerEntry_h3_noText hd ht htex]

/-- C8, witness: the exclusion theorem at a concrete `h3` whose only direct
text child is whitespace. -/
theorem h3_empty_text_excluded_witness :
    (extract_post_data
        ⟨[], [⟨HTag.h3, some "x".data, [], [Node.text "  ".data]⟩]⟩ postUrl0).2.1 =
      (extract_post_data (Soup.mk [] []) postUrl0).2.1 :=
  h3_empty_text_excluded [] [] [] postUrl0
    ⟨HTag.h3, some "x".data, [], [Node.text "  ".data]⟩
    rfl (by decide) (by decide)

/-- C10: the closing-marker test is a Python substring test (`in` on a
string), so any first-level heading without the `post-title` class whose id
merely contains `thats-all-for-this-week` as a substring contributes
nothing to the headers list: extraction with it yields the same headers
list as without it. -/
theorem marker_substring_excluded (imgs : List Img) (pre post : List Heading)
    (url : List Char) (hd : Heading) (i : List Char) (ht : hd.tag = HTag.h1)
    (hcl : "post-title".data ∉ hd.classes) (hid : hd.idAttr = some i)
    (hsub : substrIn ("thats-all-for-this-week".data) i = true) :
    (extract_post_data ⟨imgs, pre ++ hd :: post⟩ url).2.1 =
      (extract_post_data ⟨imgs, pre ++ post⟩ url).2.1 := by
  have hm : markerIn hd.idAttr = true := by
    rw [hid, markerIn]
    exact hsub
  rw [extract_headers_eq, extract_headers_eq]
  simp only [List.filterMap_append, List.filterMap_cons,
    headerEntry_h1_marker hd ht hm]

/-- C10, witness: the substring-exclusion theorem at the concrete id
`thats-all-for-this-week-2`, which is not equal to the marker but contains
it. -/
theorem marker_substring_excluded_witness :
    (extract_post_data
        ⟨[], [⟨HTag.h1, some ("thats-all-for-this-week-2".data), [],
               [Node.text "bye".data]⟩]⟩ postUrl0).2.1 =
      (extract_post_data (Soup.mk [] []) postUrl0).2.1 :=
  marker_substring_excluded [] [] [] postUrl0
    ⟨HTag.h1, some ("thats-all-for-this-week-2".data), [], [Node.text "bye".data]⟩
    ("thats-all-for-this-week-2".data) rfl (by decide) rfl (by decide)

/-- C9: the extracted image list is exactly the path-matched `img` elements
with a truthy `src`, in document order, each resolved against the post URL;
and for an absolute post URL, every non-empty `src` without its own scheme
resolves to a member of the list that is itself an absolute URL. -/
theorem images_resolved_spec (soup : Soup) (url : List Char)
    (hurl : isAbsUrl url = true) :
    (extract_post_data soup url).2.2 =
      ((soup.imgs.filter fun i => truthyOpt i.src).map fun i =>
        urljoin url (i.src.getD [])) ∧
    ∀ i ∈ soup.imgs, ∀ s, i.src = some s → s ≠ [] →
      urljoin url s ∈ (extract_post_data soup url).2.2 ∧
      (hasScheme s = false → isAbsUrl (urljoin url s) = true) := by
  refine ⟨extract_images_eq soup url, ?_⟩
  intro i hi s hs hse
  constructor
  · rw [extract_images_filterMap]
    refine List.mem_filterMap.mpr ⟨i, hi, ?_⟩
    rw [hs]
    simp [hse]
  · intro hsch
    exact urljoin_abs url s hurl hsch

/-- A document with one relative-`src` image and one `src`-less image. -/
def soupOneImg : Soup := ⟨[⟨some "/img/x.png".data⟩, ⟨none⟩], []⟩

/-- C9, witness: the image-resolution theorem at a concrete document and
absolute post URL. -/
theorem images_resolved_spec_witness :
    isAbsUrl postUrl0 = true ∧
    ((extract_post_data soupOneImg postUrl0).2.2 =
      ((soupOneImg.imgs.filter fun i => truthyOpt i.src).map fun i =>
        urljoin postUrl0 (i.src.getD [])) ∧
     ∀ i ∈ soupOneImg.imgs, ∀ s, i.src = some s → s ≠ [] →
       urljoin postUrl0 s ∈ (extract_post_data soupOneImg postUrl0).2.2 ∧
       (hasScheme s = false → isAbsUrl (urljoin postUrl0 s) = true)) :=
  ⟨by decide, images_resolved_spec soupOneImg postUrl0 (by decide)⟩
